import Mathlib

/-!
Verification of the numeric/geometric core of the keras-yolo3 repository
(`yolo3/model.py`): the target assigner `preprocess_true_boxes`, the box
decoder `yolo_head` / `yolo_correct_boxes`, the detection filter `yolo_eval`
(with the TensorFlow `non_max_suppression` kernel it calls), the IoU helper
`box_iou`, and the masked log-size term of `yolo_loss`.

Machine floats are modelled by rationals; the transcendental activations
(sigmoid, exp, log) are abstract function parameters, since every property
below is about the surrounding arithmetic and index bookkeeping, not about
the activation values themselves.  Division whose float counterpart can
produce a non-finite value (NaN/Inf) is modelled by an `Option`-valued
division where the claim is about that very guard.
-/

namespace KerasYolo3

/-- One ground-truth row of `true_boxes`: absolute corners plus class id,
as in the shape-(m, T, 5) input of `preprocess_true_boxes`. -/
structure GTRow where
  x0 : ℚ
  y0 : ℚ
  x1 : ℚ
  y1 : ℚ
  cls : ℚ
deriving DecidableEq, Repr

/-- `np.argmax` over a rational list: index of the first maximal element
(numpy breaks ties by the lowest index).  `argmaxFirst (a :: rest)` points
past `a` only when the best value of `rest` is strictly larger than `a`. -/
def argmaxFirst : List ℚ → ℕ
  | [] => 0
  | [_] => 0
  | a :: b :: rest =>
    let j := argmaxFirst (b :: rest)
    if a < (b :: rest).getD j 0 then j + 1 else 0

/-- Zero-centered shape IoU between a box of size (w, h) and an anchor of
size (aw, ah), exactly as computed inline in `preprocess_true_boxes`
(model.py lines 290-300): both rectangles are centered at the origin,
intersection extents are clamped at zero, and IoU = inter / union. -/
def shape_iou (w h aw ah : ℚ) : ℚ :=
  let interW := max (min (w / 2) (aw / 2) - max (-(w / 2)) (-(aw / 2))) 0
  let interH := max (min (h / 2) (ah / 2) - max (-(h / 2)) (-(ah / 2))) 0
  let interArea := interW * interH
  interArea / (w * h + aw * ah - interArea)

/-- Shape IoU of one box against every anchor (the row of `iou` fed to
`np.argmax` in `preprocess_true_boxes`). -/
def anchorIoUs (w h : ℚ) (anchors : List (ℚ × ℚ)) : List ℚ :=
  anchors.map fun a => shape_iou w h a.1 a.2

/-- `best_anchor = np.argmax(iou, axis=-1)` for a single box. -/
def box_best_anchor (anchors : List (ℚ × ℚ)) (wh : ℚ × ℚ) : ℕ :=
  argmaxFirst (anchorIoUs wh.1 wh.2 anchors)

/-- The fixed scale-to-anchor-index mask of `preprocess_true_boxes`
(model.py lines 261-262): `[[6,7,8],[3,4,5],[0,1,2]]` when `num_layers == 3`,
otherwise `[[3,4,5],[1,2,3]]`. -/
def anchor_mask (numLayers : ℕ) : List (List ℕ) :=
  if numLayers = 3 then [[6, 7, 8], [3, 4, 5], [0, 1, 2]] else [[3, 4, 5], [1, 2, 3]]

/-- Stride of scale `l`: the `{0: 32, 1: 16, 2: 8}` table of
`preprocess_true_boxes`. -/
def strideOf (l : ℕ) : ℕ := if l = 0 then 32 else if l = 1 then 16 else 8

/-- `grid_shapes = [input_shape // {0:32, 1:16, 2:8}[l] for l in range(num_layers)]`,
as (height, width) pairs. -/
def grid_shapes (inH inW : ℕ) (numLayers : ℕ) : List (ℕ × ℕ) :=
  (List.range numLayers).map fun l => (inH / strideOf l, inW / strideOf l)

/-- `list.index(x)`: position of the first occurrence (`anchor_mask[l].index(n)`). -/
def listIndex (x : ℕ) : List ℕ → ℕ
  | [] => 0
  | a :: rest => if a = x then 0 else listIndex x rest + 1

/-- `.astype('int32')` on a float: truncation toward zero. -/
def truncQ (q : ℚ) : ℤ := if q < 0 then ⌈q⌉ else ⌊q⌋

/-- Center of a corner-form box as computed by
`boxes_xy = (true_boxes[..., 0:2] + true_boxes[..., 2:4]) // 2`
(model.py line 266): floor division by 2, NOT the exact midpoint. -/
def corner_to_center_xy (r : GTRow) : ℚ × ℚ :=
  ((⌊(r.x0 + r.x1) / 2⌋ : ℤ), (⌊(r.y0 + r.y1) / 2⌋ : ℤ))

/-- Size of a corner-form box:
`boxes_wh = true_boxes[..., 2:4] - true_boxes[..., 0:2]` (model.py line 267). -/
def corner_to_center_wh (r : GTRow) : ℚ × ℚ :=
  (r.x1 - r.x0, r.y1 - r.y0)

/-- Center form back to corner form, as done by the mins/maxes computation of
`box_iou` (model.py lines 336-338): corners = center -+ size / 2. -/
def center_to_corner (xy wh : ℚ × ℚ) : ℚ × ℚ × ℚ × ℚ :=
  (xy.1 - wh.1 / 2, xy.2 - wh.2 / 2, xy.1 + wh.1 / 2, xy.2 + wh.2 / 2)

/-- Normalized center written into `true_boxes[..., 0:2]`:
`boxes_xy / input_shape[::-1]` (x divided by input width, y by input height). -/
def normXY (inH inW : ℕ) (r : GTRow) : ℚ × ℚ :=
  ((corner_to_center_xy r).1 / (inW : ℚ), (corner_to_center_xy r).2 / (inH : ℚ))

/-- Normalized size written into `true_boxes[..., 2:4]`:
`boxes_wh / input_shape[::-1]`. -/
def normWH (inH inW : ℕ) (r : GTRow) : ℚ × ℚ :=
  ((corner_to_center_wh r).1 / (inW : ℚ), (corner_to_center_wh r).2 / (inH : ℚ))

/-- The absolute (w, h) rows kept by `valid_mask = boxes_wh[..., 0] > 0`:
only the WIDTH is tested (model.py line 282). -/
def validWH (rows : List GTRow) : List (ℚ × ℚ) :=
  (rows.map fun r => (r.x1 - r.x0, r.y1 - r.y0)).filter fun p => decide (0 < p.1)

/-- A single store into the target tensors:
`y_true[layer][b, j, i, k, 0:4] = (x, y, w, h)`, `[4] = 1`, `[5 + cls] = 1`. -/
structure Write where
  layer : ℕ
  j : ℤ
  i : ℤ
  k : ℕ
  x : ℚ
  y : ℚ
  w : ℚ
  h : ℚ
  cls : ℤ
deriving DecidableEq, Repr

/-- All default values used when building a `Write`. -/
def defaultRow : GTRow := ⟨0, 0, 0, 0, 0⟩

/-- The inner loop of `preprocess_true_boxes` (model.py lines 305-314) for one
box whose best anchor is `n`: for every layer `l` with `n in anchor_mask[l]`,
emit one store at cell `i = floor(x * grid_w)`, `j = floor(y * grid_h)`,
slot `k = anchor_mask[l].index(n)`.  There is no `break`: a layer is skipped
only when `n` is not in its mask row. -/
def boxWrites (mask : List (List ℕ)) (grids : List (ℕ × ℕ)) (n : ℕ)
    (x y w h : ℚ) (cls : ℤ) : List Write :=
  (List.range mask.length).filterMap fun l =>
    if n ∈ mask.getD l [] then
      some { layer := l
             j := ⌊y * (((grids.getD l (0, 0)).1 : ℤ) : ℚ)⌋
             i := ⌊x * (((grids.getD l (0, 0)).2 : ℤ) : ℚ)⌋
             k := listIndex n (mask.getD l [])
             x := x, y := y, w := w, h := h, cls := cls }
    else none

/-- Stores generated for the `t`-th VALID box (the enumeration index of the
filtered `wh` array): its anchor comes from the filtered sizes, while the
stored coordinates are read from `true_boxes[b, t]`, i.e. from the UNFILTERED
row `t`, exactly as in the source. -/
def writesForBox (anchors : List (ℚ × ℚ)) (mask : List (List ℕ))
    (grids : List (ℕ × ℕ)) (inH inW : ℕ) (rows : List GTRow)
    (t : ℕ) (wh : ℚ × ℚ) : List Write :=
  let r := rows.getD t defaultRow
  boxWrites mask grids (box_best_anchor anchors wh)
    (normXY inH inW r).1 (normXY inH inW r).2
    (normWH inH inW r).1 (normWH inH inW r).2 (truncQ r.cls)

/-- All stores performed for one image: `for t, n in enumerate(best_anchor)`
over the width-filtered boxes. -/
def imageWrites (anchors : List (ℚ × ℚ)) (mask : List (List ℕ))
    (grids : List (ℕ × ℕ)) (inH inW : ℕ) (rows : List GTRow) : List Write :=
  ((validWH rows).enum).flatMap fun p =>
    writesForBox anchors mask grids inH inW rows p.1 p.2

/-- `preprocess_true_boxes` (model.py lines 242-316), at the level of the
store events it performs.  The very first statement of the source is
`assert (true_boxes[..., 4] < num_classes).all()`, raised before any target
tensor is allocated; the error case therefore carries no tensors at all.
On success one list of stores per batch image is produced, with
`num_layers = len(anchors) // 3` and the corresponding anchor mask. -/
def preprocess_true_boxes (batch : List (List GTRow)) (inH inW : ℕ)
    (anchors : List (ℚ × ℚ)) (num_classes : ℕ) :
    Except String (List (List Write)) :=
  if batch.all fun rows => rows.all fun r => decide (r.cls < (num_classes : ℚ)) then
    Except.ok (batch.map fun rows =>
      imageWrites anchors (anchor_mask (anchors.length / 3))
        (grid_shapes inH inW (anchors.length / 3)) inH inW rows)
  else
    Except.error "class id must be less than num_classes"

/-- A candidate box as fed to the detection filter: corner form
(y_min, x_min, y_max, x_max), the layout produced by `yolo_correct_boxes`. -/
structure TBox where
  y1 : ℚ
  x1 : ℚ
  y2 : ℚ
  x2 : ℚ
deriving DecidableEq, Repr

/-- Area of a candidate box after the corner canonicalization performed by
the TensorFlow `non_max_suppression` kernel (any diagonal pair of corners is
accepted; the kernel sorts each pair). -/
def tboxArea (b : TBox) : ℚ :=
  (max b.y1 b.y2 - min b.y1 b.y2) * (max b.x1 b.x2 - min b.x1 b.x2)

/-- Modelled from the TensorFlow kernel called at model.py line 226:
`tf.image.non_max_suppression` computes pairwise IoU with corner
canonicalization, returning 0 whenever either box has non-positive area. -/
def tfIoU (a b : TBox) : ℚ :=
  if tboxArea a ≤ 0 ∨ tboxArea b ≤ 0 then 0
  else
    let inter :=
      max (min (max a.y1 a.y2) (max b.y1 b.y2) - max (min a.y1 a.y2) (min b.y1 b.y2)) 0
        * max (min (max a.x1 a.x2) (max b.x1 b.x2) - max (min a.x1 a.x2) (min b.x1 b.x2)) 0
    inter / (tboxArea a + tboxArea b - inter)

/-- Modelled from the TensorFlow kernel called at model.py line 226: greedy
non-max suppression on a list already sorted by descending score.  It keeps
the best remaining candidate, discards every later candidate whose IoU with
it EXCEEDS the threshold (`iou > iou_threshold` suppresses, so equality
survives), and stops after `max_output_size` selections. -/
def non_max_suppression (iou_threshold : ℚ) : ℕ → List (TBox × ℚ) → List (TBox × ℚ)
  | 0, _ => []
  | _ + 1, [] => []
  | n + 1, b :: rest =>
    b :: non_max_suppression iou_threshold n
      (rest.filter fun c => decide (tfIoU b.1 c.1 ≤ iou_threshold))

/-- The per-class body of the `for c in range(num_classes)` loop of
`yolo_eval` (model.py lines 222-234): keep the candidates whose class-c
score passes `mask = box_scores >= score_threshold`, then run NMS capped at
`max_boxes` on them (the TF kernel processes candidates in descending score
order). -/
def yolo_eval_class (cands : List (TBox × List ℚ)) (max_boxes : ℕ)
    (score_threshold iou_threshold : ℚ) (c : ℕ) : List (TBox × ℚ) :=
  let class_boxes :=
    (cands.map fun p => (p.1, p.2.getD c 0)).filter fun p => decide (score_threshold ≤ p.2)
  non_max_suppression iou_threshold max_boxes
    (List.insertionSort (fun p q : TBox × ℚ => q.2 ≤ p.2) class_boxes)

/-- `yolo_eval` (model.py lines 198-239) after the per-scale decode:
given the concatenated candidate boxes with their per-class score rows, the
per-class kept lists are labelled with the class id and concatenated in
ascending class order. -/
def yolo_eval (cands : List (TBox × List ℚ)) (num_classes max_boxes : ℕ)
    (score_threshold iou_threshold : ℚ) : List (TBox × ℚ × ℕ) :=
  (List.range num_classes).foldr
    (fun c acc =>
      (yolo_eval_class cands max_boxes score_threshold iou_threshold c).map
        (fun p => (p.1, p.2, c)) ++ acc) []

/-- Keyword default `max_boxes=20` of `yolo_eval` (model.py line 198). -/
def yolo_eval_default_max_boxes : ℕ := 20

/-- Keyword default `score_threshold=.6` of `yolo_eval` (model.py line 199). -/
def yolo_eval_default_score_threshold : ℚ := 6 / 10

/-- Keyword default `iou_threshold=.5` of `yolo_eval` (model.py line 199). -/
def yolo_eval_default_iou_threshold : ℚ := 5 / 10

/-- Calling `yolo_eval` without supplying any of the three filter
parameters: Python then applies the keyword defaults above. -/
def yolo_eval_with_defaults (cands : List (TBox × List ℚ)) (num_classes : ℕ) :
    List (TBox × ℚ × ℕ) :=
  yolo_eval cands num_classes yolo_eval_default_max_boxes
    yolo_eval_default_score_threshold yolo_eval_default_iou_threshold

/-- `"score": 0.3` of `YOLO._DEFAULT_PARAMS` (yolo.py line 51), also the
`score=0.3` keyword default of `YOLO.__init__`. -/
def YOLO_default_score : ℚ := 3 / 10

/-- `"iou": 0.45` of `YOLO._DEFAULT_PARAMS` (yolo.py line 52), also the
`iou=0.45` keyword default of `YOLO.__init__`. -/
def YOLO_default_iou : ℚ := 45 / 100

/-- The filter call made by `YOLO._create_model` (yolo.py lines 146-151):
`yolo_eval(..., score_threshold=self.score, iou_threshold=self.iou)` with
`max_boxes` left at its own keyword default. -/
def YOLO_detector_eval (cands : List (TBox × List ℚ)) (num_classes : ℕ) :
    List (TBox × ℚ × ℕ) :=
  yolo_eval cands num_classes yolo_eval_default_max_boxes
    YOLO_default_score YOLO_default_iou

/-- `K.round`: TensorFlow rounds half-way cases to the nearest even
integer. -/
def roundHalfToEven (q : ℚ) : ℤ :=
  if q - ⌊q⌋ = 1 / 2 then (if ⌊q⌋ % 2 = 0 then ⌊q⌋ else ⌊q⌋ + 1) else round q

/-- `new_shape = K.round(image_shape * K.min(input_shape / image_shape))`,
height component (model.py line 167). -/
def letterbox_newH (inH inW imH imW : ℚ) : ℚ :=
  roundHalfToEven (imH * min (inH / imH) (inW / imW))

/-- Width component of `new_shape` (model.py line 167). -/
def letterbox_newW (inH inW imH imW : ℚ) : ℚ :=
  roundHalfToEven (imW * min (inH / imH) (inW / imW))

/-- `offset = (input_shape - new_shape) / 2. / input_shape`, height (y)
component (model.py line 168). -/
def letterbox_offY (inH inW imH imW : ℚ) : ℚ :=
  (inH - letterbox_newH inH inW imH imW) / 2 / inH

/-- Width (x) component of `offset` (model.py line 168). -/
def letterbox_offX (inH inW imH imW : ℚ) : ℚ :=
  (inW - letterbox_newW inH inW imH imW) / 2 / inW

/-- `yolo_correct_boxes` (model.py lines 161-184) for one decoded box:
reverse (x, y) to (y, x), undo the letterbox offset and scale
(`scale = input_shape / new_shape`), form corner mins/maxes, and rescale to
original image pixels; output order (y_min, x_min, y_max, x_max).  There is
no clamping anywhere. -/
def yolo_correct_boxes (box_xy box_wh : ℚ × ℚ) (inH inW imH imW : ℚ) : TBox :=
  let y := (box_xy.2 - letterbox_offY inH inW imH imW)
    * (inH / letterbox_newH inH inW imH imW)
  let x := (box_xy.1 - letterbox_offX inH inW imH imW)
    * (inW / letterbox_newW inH inW imH imW)
  let hh := box_wh.2 * (inH / letterbox_newH inH inW imH imW)
  let ww := box_wh.1 * (inW / letterbox_newW inH inW imH imW)
  { y1 := (y - hh / 2) * imH
    x1 := (x - ww / 2) * imW
    y2 := (y + hh / 2) * imH
    x2 := (x + ww / 2) * imW }

/-- The decoded outputs of `yolo_head` at one grid cell (j, i) and one
anchor slot a. -/
structure YoloHead where
  box_xy : ℚ × ℚ
  box_wh : ℚ × ℚ
  box_confidence : ℚ
  box_class_probs : ℕ → ℚ

/-- `yolo_head` (model.py lines 131-158) at cell (j, i), anchor slot a,
with `sig` and `ex` the (abstract) sigmoid and exponential.  `feats j i ch`
is the raw flat channel `ch` of the feature map; the reshape to
`(..., num_anchors, num_classes + 5)` makes channel `ch` of slot `a` the
flat channel `a * (num_classes + 5) + ch`.  The grid entry at (j, i) is
(i, j) — `grid_x` before `grid_y` — and the divisions use
`grid_shape[::-1] = (grid_w, grid_h)` and `input_shape[::-1] = (in_w, in_h)`,
so the x component is divided by widths and the y component by heights. -/
def yolo_head (sig ex : ℚ → ℚ) (feats : ℕ → ℕ → ℕ → ℚ)
    (anchors : List (ℚ × ℚ)) (num_classes gridH gridW inH inW : ℕ)
    (j i a : ℕ) : YoloHead :=
  let f : ℕ → ℚ := fun ch => feats j i (a * (num_classes + 5) + ch)
  { box_xy := ((sig (f 0) + (i : ℚ)) / (gridW : ℚ), (sig (f 1) + (j : ℚ)) / (gridH : ℚ))
    box_wh := (ex (f 2) * (anchors.getD a (0, 0)).1 / (inW : ℚ),
               ex (f 3) * (anchors.getD a (0, 0)).2 / (inH : ℚ))
    box_confidence := sig (f 4)
    box_class_probs := fun c => sig (f (5 + c)) }

/-- A center-form box (x, y, w, h), the layout of `box_iou` inputs. -/
structure CWBox where
  x : ℚ
  y : ℚ
  w : ℚ
  h : ℚ
deriving DecidableEq, Repr

/-- Rational division modelling IEEE float division: a zero denominator
yields a non-finite value (NaN or Inf), modelled as `none`. -/
def qdivOpt (a b : ℚ) : Option ℚ := if b = 0 then none else some (a / b)

/-- `box_iou` (model.py lines 319-356) for one pair of center-form boxes:
corners = center -+ size / 2, intersection extents clamped at zero, and the
final statement is the bare division
`iou = intersect_area / (b1_area + b2_area - intersect_area)` — there is no
guard on the union, so a zero denominator is a genuine float division by
zero. -/
def box_iou (b1 b2 : CWBox) : Option ℚ :=
  let interW := max (min (b1.x + b1.w / 2) (b2.x + b2.w / 2)
    - max (b1.x - b1.w / 2) (b2.x - b2.w / 2)) 0
  let interH := max (min (b1.y + b1.h / 2) (b2.y + b2.h / 2)
    - max (b1.y - b1.h / 2) (b2.y - b2.h / 2)) 0
  let interArea := interW * interH
  qdivOpt interArea (b1.w * b1.h + b2.w * b2.h - interArea)

/-- The `raw_true_wh` computation of `yolo_loss` (model.py lines 400-402)
for one tensor entry: `K.log(y_true_wh / anchors * input_shape[::-1])`
followed by `K.switch(object_mask, raw_true_wh, zeros)`, which selects the
log term where the objectness mask is non-zero and zero elsewhere; `lg` is
the (abstract) logarithm, undefined behaviour at 0 included. -/
def raw_true_wh (lg : ℚ → ℚ) (object_mask tW tH aW aH inW inH : ℚ) : ℚ × ℚ :=
  if object_mask = 0 then (0, 0) else (lg (tW / aW * inW), lg (tH / aH * inH))

/-- The standard 9-anchor configuration of the full YOLOv3 model. -/
def anchors9 : List (ℚ × ℚ) :=
  [(10, 13), (16, 30), (33, 23), (30, 61), (62, 45), (59, 119), (116, 90), (156, 198), (373, 326)]

/-- A 6-anchor configuration, giving `num_layers = 2` and the 2-scale mask. -/
def anchors6 : List (ℚ × ℚ) :=
  [(10, 10), (20, 20), (30, 30), (40, 40), (50, 50), (60, 60)]

lemma argmaxFirst_lt_length : ∀ (l : List ℚ), l ≠ [] → argmaxFirst l < l.length := by
  intro l
  induction l with
  | nil => simp
  | cons a t ih =>
    intro _
    cases t with
    | nil => simp [argmaxFirst]
    | cons b rest =>
      simp only [argmaxFirst, List.length_cons]
      split
      · exact Nat.succ_lt_succ (ih (by simp))
      · exact Nat.succ_pos _

lemma argmaxFirst_getD_le : ∀ (l : List ℚ) (k : ℕ), k < l.length →
    l.getD k 0 ≤ l.getD (argmaxFirst l) 0 := by
  intro l
  induction l with
  | nil => intro k hk; simp at hk
  | cons a t ih =>
    intro k hk
    cases t with
    | nil =>
      have : k = 0 := Nat.lt_one_iff.mp (by simpa using hk)
      subst this
      simp [argmaxFirst]
    | cons b rest =>
      simp only [argmaxFirst]
      split
      · rw [List.getD_cons_succ]
        cases k with
        | zero =>
          rw [List.getD_cons_zero]
          exact le_of_lt (by assumption)
        | succ k2 =>
          rw [List.getD_cons_succ]
          exact ih k2 (by simpa using hk)
      · rw [List.getD_cons_zero]
        cases k with
        | zero => simp
        | succ k2 =>
          rw [List.getD_cons_succ]
          exact le_trans (ih k2 (by simpa using hk)) (not_lt.mp (by assumption))

lemma argmaxFirst_getD_lt_before : ∀ (l : List ℚ) (k : ℕ), k < argmaxFirst l →
    l.getD k 0 < l.getD (argmaxFirst l) 0 := by
  intro l
  induction l with
  | nil => intro k hk; simp [argmaxFirst] at hk
  | cons a t ih =>
    intro k hk
    cases t with
    | nil => simp [argmaxFirst] at hk
    | cons b rest =>
      simp only [argmaxFirst] at hk ⊢
      split
      · rw [List.getD_cons_succ]
        cases k with
        | zero =>
          rw [List.getD_cons_zero]
          assumption
        | succ k2 =>
          rw [List.getD_cons_succ]
          have hk2 : k2 < argmaxFirst (b :: rest) := by
            have hsplit : (if a < (b :: rest).getD (argmaxFirst (b :: rest)) 0
                then argmaxFirst (b :: rest) + 1 else 0) = argmaxFirst (b :: rest) + 1 := by
              rw [if_pos (by assumption)]
            rw [hsplit] at hk
            exact Nat.lt_of_succ_lt_succ hk
          exact ih k2 hk2
      · have hsplit : (if a < (b :: rest).getD (argmaxFirst (b :: rest)) 0
            then argmaxFirst (b :: rest) + 1 else 0) = 0 := by
          rw [if_neg (by assumption)]
        rw [hsplit] at hk
        exact absurd hk (Nat.not_lt_zero k)

lemma length_filterMap_ite {α β : Type} (p : α → Prop) [DecidablePred p] (g : α → β) :
    ∀ L : List α, (L.filterMap fun l => if p l then some (g l) else none).length
      = (L.filter fun l => decide (p l)).length := by
  intro L
  induction L with
  | nil => rfl
  | cons a L ih =>
    by_cases h : p a
    · simp [List.filterMap_cons, List.filter_cons, h, ih]
    · simp [List.filterMap_cons, List.filter_cons, h, ih]

lemma boxWrites_length (mask : List (List ℕ)) (grids : List (ℕ × ℕ)) (n : ℕ)
    (x y w h : ℚ) (cls : ℤ) :
    (boxWrites mask grids n x y w h cls).length
      = ((List.range mask.length).filter fun l => decide (n ∈ mask.getD l [])).length := by
  unfold boxWrites
  exact length_filterMap_ite _ _ _

lemma mask3_write_count : ∀ n, n < 9 →
    (((List.range (anchor_mask 3).length).filter
      fun l => decide (n ∈ (anchor_mask 3).getD l [])).length) = 1 := by decide

/-- C1 (amended, 3-scale part): with the 3-scale anchor mask
`[[6,7,8],[3,4,5],[0,1,2]]`, every valid (positive-area) ground-truth box is
written into exactly one (scale, cell, anchor-slot) triple, and its chosen
anchor attains the maximal zero-centered shape IoU over all nine anchors,
ties broken by the lowest anchor index (strictly smaller IoU at every
earlier index). -/
theorem preprocess_one_write_per_box_3scale
    (anchors : List (ℚ × ℚ)) (rows : List GTRow) (inH inW : ℕ) (t : ℕ)
    (h9 : anchors.length = 9)
    (hpos : ∀ p ∈ anchors, 0 < p.1 ∧ 0 < p.2)
    (ht : t < (validWH rows).length)
    (hh : 0 < ((validWH rows).getD t (0, 0)).2) :
    (writesForBox anchors (anchor_mask (anchors.length / 3))
        (grid_shapes inH inW (anchors.length / 3)) inH inW rows t
        ((validWH rows).getD t (0, 0))).length = 1
    ∧ (∀ k, k < anchors.length →
        (anchorIoUs ((validWH rows).getD t (0, 0)).1 ((validWH rows).getD t (0, 0)).2
            anchors).getD k 0
          ≤ (anchorIoUs ((validWH rows).getD t (0, 0)).1 ((validWH rows).getD t (0, 0)).2
            anchors).getD (box_best_anchor anchors ((validWH rows).getD t (0, 0))) 0)
    ∧ ∀ k, k < box_best_anchor anchors ((validWH rows).getD t (0, 0)) →
        (anchorIoUs ((validWH rows).getD t (0, 0)).1 ((validWH rows).getD t (0, 0)).2
            anchors).getD k 0
          < (anchorIoUs ((validWH rows).getD t (0, 0)).1 ((validWH rows).getD t (0, 0)).2
            anchors).getD (box_best_anchor anchors ((validWH rows).getD t (0, 0))) 0 := by
  have h3 : anchors.length / 3 = 3 := by rw [h9]
  have hlen : (anchorIoUs ((validWH rows).getD t (0, 0)).1
      ((validWH rows).getD t (0, 0)).2 anchors).length = 9 := by
    simpa [anchorIoUs] using h9
  have hne : (anchorIoUs ((validWH rows).getD t (0, 0)).1
      ((validWH rows).getD t (0, 0)).2 anchors) ≠ [] := by
    intro hcon
    rw [hcon] at hlen
    simp at hlen
  have hbest : box_best_anchor anchors ((validWH rows).getD t (0, 0)) < 9 := by
    have := argmaxFirst_lt_length _ hne
    rw [hlen] at this
    exact this
  refine ⟨?_, ?_, ?_⟩
  · rw [h3]
    unfold writesForBox
    rw [boxWrites_length]
    exact mask3_write_count _ hbest
  · intro k hk
    exact argmaxFirst_getD_le _ k (by rw [hlen, ← h9]; exact hk)
  · intro k hk
    exact argmaxFirst_getD_lt_before _ k hk

unseal Rat.add Rat.sub Rat.mul Rat.inv in
/-- Witness for `preprocess_one_write_per_box_3scale`: the single box
(100,100,140,160) of a 416 by 416 image with the standard nine anchors. -/
theorem preprocess_one_write_per_box_3scale_witness :
    anchors9.length = 9
    ∧ (∀ p ∈ anchors9, 0 < p.1 ∧ 0 < p.2)
    ∧ 0 < (validWH [⟨100, 100, 140, 160, 2⟩]).length
    ∧ 0 < ((validWH [⟨100, 100, 140, 160, 2⟩]).getD 0 (0, 0)).2
    ∧ ((writesForBox anchors9 (anchor_mask (anchors9.length / 3))
          (grid_shapes 416 416 (anchors9.length / 3)) 416 416 [⟨100, 100, 140, 160, 2⟩] 0
          ((validWH [⟨100, 100, 140, 160, 2⟩]).getD 0 (0, 0))).length = 1
        ∧ (∀ k, k < anchors9.length →
            (anchorIoUs ((validWH [⟨100, 100, 140, 160, 2⟩]).getD 0 (0, 0)).1
                ((validWH [⟨100, 100, 140, 160, 2⟩]).getD 0 (0, 0)).2 anchors9).getD k 0
              ≤ (anchorIoUs ((validWH [⟨100, 100, 140, 160, 2⟩]).getD 0 (0, 0)).1
                ((validWH [⟨100, 100, 140, 160, 2⟩]).getD 0 (0, 0)).2 anchors9).getD
                  (box_best_anchor anchors9 ((validWH [⟨100, 100, 140, 160, 2⟩]).getD 0 (0, 0))) 0)
        ∧ ∀ k, k < box_best_anchor anchors9 ((validWH [⟨100, 100, 140, 160, 2⟩]).getD 0 (0, 0)) →
            (anchorIoUs ((validWH [⟨100, 100, 140, 160, 2⟩]).getD 0 (0, 0)).1
                ((validWH [⟨100, 100, 140, 160, 2⟩]).getD 0 (0, 0)).2 anchors9).getD k 0
              < (anchorIoUs ((validWH [⟨100, 100, 140, 160, 2⟩]).getD 0 (0, 0)).1
                ((validWH [⟨100, 100, 140, 160, 2⟩]).getD 0 (0, 0)).2 anchors9).getD
                  (box_best_anchor anchors9
                    ((validWH [⟨100, 100, 140, 160, 2⟩]).getD 0 (0, 0))) 0) :=
  ⟨by decide, by decide, by decide, by decide,
    preprocess_one_write_per_box_3scale anchors9 [⟨100, 100, 140, 160, 2⟩] 416 416 0
      (by decide) (by decide) (by decide) (by decide)⟩

unseal Rat.add Rat.sub Rat.mul Rat.inv in
/-- C1 counterexample: with the 2-scale mask `[[3,4,5],[1,2,3]]` a valid
positive-area box whose best anchor has index 3 is written into TWO
(scale, cell, anchor-slot) triples, one per scale, because index 3 occurs in
both mask rows — refuting the "exactly one triple for both masks" claim. -/
theorem preprocess_two_writes_2scale_counterexample :
    box_best_anchor anchors6 ((validWH [⟨100, 100, 140, 140, 0⟩]).getD 0 (0, 0)) = 3
    ∧ (imageWrites anchors6 (anchor_mask (anchors6.length / 3))
        (grid_shapes 416 416 (anchors6.length / 3)) 416 416
        [⟨100, 100, 140, 140, 0⟩]).length = 2 := by decide

/-- C6 (amended): a ground-truth box is silently dropped exactly when its
WIDTH is non-positive: the batch never errors when all class ids are valid,
the number of anchor-matched boxes equals the number of positive-width rows,
and an image whose rows all have non-positive width produces no store at
all.  (Non-positive height alone does not drop a box; see the
counterexample.) -/
theorem degenerate_width_boxes_dropped
    (inH inW : ℕ) (anchors : List (ℚ × ℚ)) (num_classes : ℕ) (rows : List GTRow)
    (hcls : ∀ r ∈ rows, r.cls < (num_classes : ℚ)) :
    (preprocess_true_boxes [rows] inH inW anchors num_classes).isOk = true
    ∧ (validWH rows).length = rows.countP (fun r => decide (0 < r.x1 - r.x0))
    ∧ ((∀ r ∈ rows, r.x1 - r.x0 ≤ 0) →
        imageWrites anchors (anchor_mask (anchors.length / 3))
          (grid_shapes inH inW (anchors.length / 3)) inH inW rows = []) := by
  refine ⟨?_, ?_, ?_⟩
  · unfold preprocess_true_boxes
    rw [if_pos]
    · rfl
    · simp only [List.all_eq_true, List.mem_singleton, decide_eq_true_eq]
      intro rows2 h2
      rw [h2]
      exact hcls
  · unfold validWH
    rw [← List.countP_eq_length_filter, List.countP_map]
    rfl
  · intro hdeg
    unfold imageWrites
    have hnil : validWH rows = [] := by
      unfold validWH
      rw [List.filter_eq_nil_iff]
      intro p hp
      simp only [List.mem_map] at hp
      obtain ⟨r, hr, hrp⟩ := hp
      simp only [decide_eq_true_eq]
      rw [← hrp]
      exact not_lt.mpr (hdeg r hr)
    rw [hnil]
    rfl

unseal Rat.add Rat.sub Rat.mul Rat.inv in
/-- Witness for `degenerate_width_boxes_dropped`: one all-zero padding row. -/
theorem degenerate_width_boxes_dropped_witness :
    (∀ r ∈ [defaultRow], r.cls < ((1 : ℕ) : ℚ))
    ∧ ((preprocess_true_boxes [[defaultRow]] 416 416 anchors9 1).isOk = true
        ∧ (validWH [defaultRow]).length
            = [defaultRow].countP (fun r => decide (0 < r.x1 - r.x0))
        ∧ ((∀ r ∈ [defaultRow], r.x1 - r.x0 ≤ 0) →
            imageWrites anchors9 (anchor_mask (anchors9.length / 3))
              (grid_shapes 416 416 (anchors9.length / 3)) 416 416 [defaultRow] = [])) :=
  ⟨by decide, degenerate_width_boxes_dropped 416 416 anchors9 1 [defaultRow] (by decide)⟩

unseal Rat.add Rat.sub Rat.mul Rat.inv in
/-- C6 counterexample: the box (100,100,132,100) has positive width 32 and
height 0, yet it is NOT dropped — it is anchor-matched and produces a store
(with objectness 1), refuting "non-positive width or non-positive height is
silently dropped". -/
theorem degenerate_height_box_written_counterexample :
    ((100 : ℚ) - 100 ≤ 0)
    ∧ (imageWrites anchors9 (anchor_mask (anchors9.length / 3))
        (grid_shapes 416 416 (anchors9.length / 3)) 416 416
        [⟨100, 100, 132, 100, 0⟩]).length = 1 := by decide

lemma preprocess_cond_iff (batch : List (List GTRow)) (num_classes : ℕ) :
    (batch.all fun rows => rows.all fun r => decide (r.cls < (num_classes : ℚ))) = true
      ↔ ∀ rows ∈ batch, ∀ r ∈ rows, r.cls < (num_classes : ℚ) := by
  simp [List.all_eq_true]

/-- C7 (confirmed): `preprocess_true_boxes` fails exactly when some
ground-truth entry has class id at least `num_classes`; the check is the
first statement of the function, so on failure the error value is returned
and no target tensor exists. -/
theorem preprocess_class_check
    (batch : List (List GTRow)) (inH inW : ℕ) (anchors : List (ℚ × ℚ))
    (num_classes : ℕ) :
    ((preprocess_true_boxes batch inH inW anchors num_classes).isOk = true
      ↔ ∀ rows ∈ batch, ∀ r ∈ rows, r.cls < (num_classes : ℚ))
    ∧ (¬ (∀ rows ∈ batch, ∀ r ∈ rows, r.cls < (num_classes : ℚ)) →
        preprocess_true_boxes batch inH inW anchors num_classes
          = Except.error "class id must be less than num_classes") := by
  by_cases hc : ∀ rows ∈ batch, ∀ r ∈ rows, r.cls < (num_classes : ℚ)
  · have hok : preprocess_true_boxes batch inH inW anchors num_classes
        = Except.ok (batch.map fun rows =>
            imageWrites anchors (anchor_mask (anchors.length / 3))
              (grid_shapes inH inW (anchors.length / 3)) inH inW rows) := by
      unfold preprocess_true_boxes
      rw [if_pos ((preprocess_cond_iff batch num_classes).mpr hc)]
    rw [hok]
    exact ⟨iff_of_true rfl hc, fun hnot => absurd hc hnot⟩
  · have herr : preprocess_true_boxes batch inH inW anchors num_classes
        = Except.error "class id must be less than num_classes" := by
      unfold preprocess_true_boxes
      rw [if_neg fun h => hc ((preprocess_cond_iff batch num_classes).mp h)]
    rw [herr]
    exact ⟨iff_of_false (by simp [Except.isOk, Except.toBool]) hc, fun _ => rfl⟩

unseal Rat.add Rat.sub Rat.mul Rat.inv in
/-- Witness for `preprocess_class_check`: a batch whose single row has class
id 5 with `num_classes = 3`. -/
theorem preprocess_class_check_witness :
    (((preprocess_true_boxes [[⟨0, 0, 10, 10, 5⟩]] 416 416 anchors9 3).isOk = true
        ↔ ∀ rows ∈ [[⟨0, 0, 10, 10, 5⟩]], ∀ r ∈ rows, GTRow.cls r < ((3 : ℕ) : ℚ))
      ∧ (¬ (∀ rows ∈ [[⟨0, 0, 10, 10, 5⟩]], ∀ r ∈ rows, GTRow.cls r < ((3 : ℕ) : ℚ)) →
          preprocess_true_boxes [[⟨0, 0, 10, 10, 5⟩]] 416 416 anchors9 3
            = Except.error "class id must be less than num_classes"))
    ∧ preprocess_true_boxes [[⟨0, 0, 10, 10, 5⟩]] 416 416 anchors9 3
        = Except.error "class id must be less than num_classes" := by
  have h := preprocess_class_check [[⟨0, 0, 10, 10, 5⟩]] 416 416 anchors9 3
  exact ⟨h, h.2 (by decide)⟩

/-- C10 (confirmed): the class-id assertion runs before the validity
filtering, so a degenerate row (non-positive width, hence later dropped)
with class id at least `num_classes` still makes `preprocess_true_boxes`
fail with the fatal validation error. -/
theorem class_check_covers_degenerate_rows
    (batch : List (List GTRow)) (inH inW : ℕ) (anchors : List (ℚ × ℚ))
    (num_classes : ℕ) (rows : List GTRow) (r : GTRow)
    (hmem : rows ∈ batch) (hr : r ∈ rows)
    (hdeg : r.x1 - r.x0 ≤ 0) (hcls : (num_classes : ℚ) ≤ r.cls) :
    preprocess_true_boxes batch inH inW anchors num_classes
      = Except.error "class id must be less than num_classes" := by
  have hcond : ¬ (batch.all fun rows => rows.all fun r =>
      decide (r.cls < (num_classes : ℚ))) = true := by
    intro hc
    exact absurd ((preprocess_cond_iff batch num_classes).mp hc rows hmem r hr)
      (not_lt.mpr hcls)
  unfold preprocess_true_boxes
  rw [if_neg hcond]

unseal Rat.add Rat.sub Rat.mul Rat.inv in
/-- Witness for `class_check_covers_degenerate_rows`: a zero-width row with
class id 7 and `num_classes = 3`. -/
theorem class_check_covers_degenerate_rows_witness :
    ((50 : ℚ) - 50 ≤ 0)
    ∧ ((3 : ℕ) : ℚ) ≤ (7 : ℚ)
    ∧ preprocess_true_boxes [[⟨50, 60, 50, 90, 7⟩]] 416 416 anchors9 3
        = Except.error "class id must be less than num_classes" :=
  ⟨by decide, by decide,
    class_check_covers_degenerate_rows [[⟨50, 60, 50, 90, 7⟩]] 416 416 anchors9 3
      [⟨50, 60, 50, 90, 7⟩] ⟨50, 60, 50, 90, 7⟩ (by decide) (by decide) (by decide) (by decide)⟩

/-- C3 (amended): the corner-to-center conversion of `preprocess_true_boxes`
floors the midpoint (`(min + max) // 2`), so the round trip back through
corners = center -+ size / 2 is the identity exactly when both midpoints are
already integral; under that hypothesis the original corners are recovered
exactly. -/
theorem corner_center_roundtrip (r : GTRow)
    (hx : ((⌊(r.x0 + r.x1) / 2⌋ : ℤ) : ℚ) = (r.x0 + r.x1) / 2)
    (hy : ((⌊(r.y0 + r.y1) / 2⌋ : ℤ) : ℚ) = (r.y0 + r.y1) / 2) :
    center_to_corner (corner_to_center_xy r) (corner_to_center_wh r)
      = (r.x0, r.y0, r.x1, r.y1) := by
  simp only [center_to_corner, corner_to_center_xy, corner_to_center_wh, Prod.mk.injEq]
  refine ⟨?_, ?_, ?_, ?_⟩
  · rw [hx]; ring
  · rw [hy]; ring
  · rw [hx]; ring
  · rw [hy]; ring

unseal Rat.add Rat.sub Rat.mul Rat.inv in
/-- Witness for `corner_center_roundtrip`: the box (0,0,4,6), whose corner
sums are even. -/
theorem corner_center_roundtrip_witness :
    (((⌊(((0 : ℚ) + 4) / 2 : ℚ)⌋ : ℤ) : ℚ) = ((0 : ℚ) + 4) / 2)
    ∧ (((⌊(((0 : ℚ) + 6) / 2 : ℚ)⌋ : ℤ) : ℚ) = ((0 : ℚ) + 6) / 2)
    ∧ center_to_corner (corner_to_center_xy ⟨0, 0, 4, 6, 0⟩)
        (corner_to_center_wh ⟨0, 0, 4, 6, 0⟩) = (0, 0, 4, 6) :=
  ⟨by decide, by decide,
    corner_center_roundtrip ⟨0, 0, 4, 6, 0⟩ (by decide) (by decide)⟩

unseal Rat.add Rat.sub Rat.mul Rat.inv in
/-- C3 counterexample: for the corner box (0,0,3,3) the floored midpoint is
(1,1), and converting back gives (-1/2,-1/2,5/2,5/2), not the original
corners — the conversions are not exact inverses. -/
theorem corner_center_roundtrip_counterexample :
    center_to_corner (corner_to_center_xy ⟨0, 0, 3, 3, 0⟩)
        (corner_to_center_wh ⟨0, 0, 3, 3, 0⟩) = (-(1 / 2), -(1 / 2), 5 / 2, 5 / 2)
    ∧ center_to_corner (corner_to_center_xy ⟨0, 0, 3, 3, 0⟩)
        (corner_to_center_wh ⟨0, 0, 3, 3, 0⟩) ≠ (0, 0, 3, 3) := by decide

/-- C5 (amended): `yolo_eval` itself defaults to score threshold 0.6, IoU
threshold 0.5 and max-per-class 20; the values 0.3 and 0.45 are the YOLO
wrapper defaults, passed explicitly by `YOLO._create_model`, which leaves
only `max_boxes` at the `yolo_eval` default — so the detector as configured
by default filters with (0.3, 0.45, 20). -/
theorem yolo_eval_defaults (cands : List (TBox × List ℚ)) (num_classes : ℕ) :
    YOLO_detector_eval cands num_classes
      = yolo_eval cands num_classes 20 (3 / 10) (45 / 100)
    ∧ yolo_eval_default_score_threshold = 6 / 10
    ∧ yolo_eval_default_iou_threshold = 5 / 10
    ∧ yolo_eval_default_max_boxes = 20 :=
  ⟨rfl, rfl, rfl, rfl⟩

unseal Rat.add Rat.sub Rat.mul Rat.inv in
/-- C5 counterexample: a single candidate of score 0.4.  Calling the filter
without supplying the parameters (Python keyword defaults, i.e. 0.6/0.5/20)
rejects it, while the claimed defaults (0.3/0.45/20) keep it — so the
filter's own defaults are not 0.3/0.45/20. -/
theorem yolo_eval_defaults_counterexample :
    yolo_eval_with_defaults [(⟨0, 0, 10, 10⟩, [2 / 5])] 1 = []
    ∧ yolo_eval [(⟨0, 0, 10, 10⟩, [2 / 5])] 1 20 (3 / 10) (45 / 100)
        = [(⟨0, 0, 10, 10⟩, 2 / 5, 0)] := by decide

/-- C8 (confirmed): `yolo_head` decodes the center as
(sigmoid(raw_xy) + (i, j)) divided by (grid_w, grid_h), the size as
anchor * exp(raw_wh) divided by (input_w, input_h), and objectness and each
class probability as sigmoids of their own raw channel; class probability c
reads only flat channel a*(num_classes+5)+(5+c) (independent sigmoids, no
softmax coupling across classes). -/
theorem yolo_head_decode (sig ex : ℚ → ℚ) (feats feats2 : ℕ → ℕ → ℕ → ℚ)
    (anchors : List (ℚ × ℚ)) (num_classes gridH gridW inH inW j i a c : ℕ) :
    (yolo_head sig ex feats anchors num_classes gridH gridW inH inW j i a).box_xy
      = ((sig (feats j i (a * (num_classes + 5) + 0)) + (i : ℚ)) / (gridW : ℚ),
         (sig (feats j i (a * (num_classes + 5) + 1)) + (j : ℚ)) / (gridH : ℚ))
    ∧ (yolo_head sig ex feats anchors num_classes gridH gridW inH inW j i a).box_wh
      = (ex (feats j i (a * (num_classes + 5) + 2)) * (anchors.getD a (0, 0)).1 / (inW : ℚ),
         ex (feats j i (a * (num_classes + 5) + 3)) * (anchors.getD a (0, 0)).2 / (inH : ℚ))
    ∧ (yolo_head sig ex feats anchors num_classes gridH gridW inH inW j i a).box_confidence
      = sig (feats j i (a * (num_classes + 5) + 4))
    ∧ (yolo_head sig ex feats anchors num_classes gridH gridW inH inW j i a).box_class_probs c
      = sig (feats j i (a * (num_classes + 5) + (5 + c)))
    ∧ (feats2 j i (a * (num_classes + 5) + (5 + c))
          = feats j i (a * (num_classes + 5) + (5 + c)) →
        (yolo_head sig ex feats2 anchors num_classes gridH gridW inH inW j i a).box_class_probs c
          = (yolo_head sig ex feats anchors num_classes gridH gridW inH inW j i a).box_class_probs c) := by
  refine ⟨rfl, rfl, rfl, rfl, fun h => ?_⟩
  simp only [yolo_head, h]

/-- Witness for `yolo_head_decode`: identity activations, the raw channel
index as feature value, cell (0,0), anchor slot 0, class 0. -/
theorem yolo_head_decode_witness :
    (yolo_head (fun q => q) (fun q => q) (fun _ _ ch => (ch : ℚ)) anchors9
        80 13 13 416 416 0 0 0).box_class_probs 0
      = (yolo_head (fun q => q) (fun q => q) (fun _ _ ch => (ch : ℚ)) anchors9
        80 13 13 416 416 0 0 0).box_class_probs 0 :=
  (yolo_head_decode (fun q => q) (fun q => q) (fun _ _ ch => (ch : ℚ))
    (fun _ _ ch => (ch : ℚ)) anchors9 80 13 13 416 416 0 0 0 0).2.2.2.2 rfl

lemma qdivOpt_isSome {a b : ℚ} (hb : b ≠ 0) : (qdivOpt a b).isSome = true := by
  simp [qdivOpt, hb]

/-- C9 (amended): the loss guard on the log term exists — wherever the
objectness mask is zero the raw width/height target is forced to (0, 0), for
EVERY logarithm function (in particular a log undefined at 0) — but the IoU
division in `box_iou` is NOT guarded: it is safe (finite) whenever both
boxes have positive area, and a zero-union pair divides by zero (see the
counterexample). -/
theorem loss_numeric_guards :
    (∀ (lg : ℚ → ℚ) (tW tH aW aH inW inH : ℚ),
      raw_true_wh lg 0 tW tH aW aH inW inH = (0, 0))
    ∧ ∀ b1 b2 : CWBox, 0 < b1.w → 0 < b1.h → 0 < b2.w → 0 < b2.h →
        (box_iou b1 b2).isSome = true := by
  constructor
  · intro lg tW tH aW aH inW inH
    simp [raw_true_wh]
  · intro b1 b2 h1w h1h h2w h2h
    simp only [box_iou]
    apply qdivOpt_isSome
    have hW1 : min (b1.x + b1.w / 2) (b2.x + b2.w / 2) ≤ b1.x + b1.w / 2 :=
      min_le_left _ _
    have hW2 : b1.x - b1.w / 2 ≤ max (b1.x - b1.w / 2) (b2.x - b2.w / 2) :=
      le_max_left _ _
    have hH1 : min (b1.y + b1.h / 2) (b2.y + b2.h / 2) ≤ b1.y + b1.h / 2 :=
      min_le_left _ _
    have hH2 : b1.y - b1.h / 2 ≤ max (b1.y - b1.h / 2) (b2.y - b2.h / 2) :=
      le_max_left _ _
    have hWle : max (min (b1.x + b1.w / 2) (b2.x + b2.w / 2)
        - max (b1.x - b1.w / 2) (b2.x - b2.w / 2)) 0 ≤ b1.w :=
      max_le (by linarith) (le_of_lt h1w)
    have hWnn : (0 : ℚ) ≤ max (min (b1.x + b1.w / 2) (b2.x + b2.w / 2)
        - max (b1.x - b1.w / 2) (b2.x - b2.w / 2)) 0 := le_max_right _ _
    have hHle : max (min (b1.y + b1.h / 2) (b2.y + b2.h / 2)
        - max (b1.y - b1.h / 2) (b2.y - b2.h / 2)) 0 ≤ b1.h :=
      max_le (by linarith) (le_of_lt h1h)
    have hHnn : (0 : ℚ) ≤ max (min (b1.y + b1.h / 2) (b2.y + b2.h / 2)
        - max (b1.y - b1.h / 2) (b2.y - b2.h / 2)) 0 := le_max_right _ _
    have hprod : max (min (b1.x + b1.w / 2) (b2.x + b2.w / 2)
          - max (b1.x - b1.w / 2) (b2.x - b2.w / 2)) 0
        * max (min (b1.y + b1.h / 2) (b2.y + b2.h / 2)
          - max (b1.y - b1.h / 2) (b2.y - b2.h / 2)) 0 ≤ b1.w * b1.h :=
      mul_le_mul hWle hHle hHnn (le_of_lt h1w)
    have hpos2 : 0 < b2.w * b2.h := mul_pos h2w h2h
    intro h0
    nlinarith

/-- Witness for `loss_numeric_guards`: the masked term at a concrete entry,
and two concrete positive-area boxes. -/
theorem loss_numeric_guards_witness :
    raw_true_wh (fun q => q) 0 1 1 1 1 416 416 = (0, 0)
    ∧ (0 : ℚ) < 2
    ∧ (box_iou ⟨0, 0, 2, 2⟩ ⟨1, 1, 2, 2⟩).isSome = true :=
  ⟨loss_numeric_guards.1 (fun q => q) 1 1 1 1 416 416, by norm_num,
    loss_numeric_guards.2 ⟨0, 0, 2, 2⟩ ⟨1, 1, 2, 2⟩ (by norm_num) (by norm_num)
      (by norm_num) (by norm_num)⟩

unseal Rat.add Rat.sub Rat.mul Rat.inv in
/-- C9 counterexample: for two degenerate boxes the union is zero, and
`box_iou` performs the division anyway — the result is the non-finite
division-by-zero value (`none`), not IoU = 0. -/
theorem box_iou_zero_union_counterexample :
    box_iou ⟨0, 0, 0, 0⟩ ⟨0, 0, 0, 0⟩ = none
    ∧ box_iou ⟨0, 0, 0, 0⟩ ⟨0, 0, 0, 0⟩ ≠ some 0 := by decide

lemma nms_subset (iou_threshold : ℚ) : ∀ (n : ℕ) (l : List (TBox × ℚ)),
    ∀ x ∈ non_max_suppression iou_threshold n l, x ∈ l := by
  intro n
  induction n with
  | zero =>
    intro l x hx
    simp [non_max_suppression] at hx
  | succ n ih =>
    intro l x hx
    cases l with
    | nil => simp [non_max_suppression] at hx
    | cons b rest =>
      simp only [non_max_suppression] at hx
      rcases List.mem_cons.mp hx with h | h
      · exact h ▸ List.mem_cons_self b rest
      · exact List.mem_cons_of_mem b (List.mem_of_mem_filter (ih _ x h))

lemma nms_length_le (iou_threshold : ℚ) : ∀ (n : ℕ) (l : List (TBox × ℚ)),
    (non_max_suppression iou_threshold n l).length ≤ n := by
  intro n
  induction n with
  | zero => intro l; simp [non_max_suppression]
  | succ n ih =>
    intro l
    cases l with
    | nil => simp [non_max_suppression]
    | cons b rest =>
      simp only [non_max_suppression, List.length_cons]
      exact Nat.succ_le_succ (ih _)

lemma nms_pairwise (iou_threshold : ℚ) : ∀ (n : ℕ) (l : List (TBox × ℚ)),
    (non_max_suppression iou_threshold n l).Pairwise
      fun p q => tfIoU p.1 q.1 ≤ iou_threshold := by
  intro n
  induction n with
  | zero => intro l; simp [non_max_suppression]
  | succ n ih =>
    intro l
    cases l with
    | nil => simp [non_max_suppression]
    | cons b rest =>
      simp only [non_max_suppression]
      refine List.Pairwise.cons ?_ (ih _)
      intro q hq
      have hq2 := nms_subset iou_threshold n _ q hq
      exact of_decide_eq_true (List.mem_filter.mp hq2).2

lemma tfIoU_comm (a b : TBox) : tfIoU a b = tfIoU b a := by
  simp only [tfIoU]
  by_cases h1 : tboxArea a ≤ 0 ∨ tboxArea b ≤ 0
  · rw [if_pos h1, if_pos (Or.symm h1)]
  · rw [if_neg h1, if_neg fun h => h1 (Or.symm h)]
    rw [min_comm (max a.y1 a.y2) (max b.y1 b.y2),
        max_comm (min a.y1 a.y2) (min b.y1 b.y2),
        min_comm (max a.x1 a.x2) (max b.x1 b.x2),
        max_comm (min a.x1 a.x2) (min b.x1 b.x2),
        add_comm (tboxArea a) (tboxArea b)]

lemma filter_label_foldr (g : ℕ → List (TBox × ℚ)) (c : ℕ) :
    ∀ L : List ℕ, L.Nodup →
      ((L.foldr (fun c2 acc => (g c2).map (fun p => (p.1, p.2, c2)) ++ acc) []).filter
          fun p => p.2.2 == c)
        = if c ∈ L then (g c).map (fun p => (p.1, p.2, c)) else [] := by
  intro L
  induction L with
  | nil => intro _; simp
  | cons a L ih =>
    intro hnd
    have haL : a ∉ L := (List.nodup_cons.mp hnd).1
    have hndL : L.Nodup := (List.nodup_cons.mp hnd).2
    simp only [List.foldr_cons, List.filter_append, ih hndL, List.filter_map]
    by_cases hac : a = c
    · subst hac
      have hfun : ((fun p : TBox × ℚ × ℕ => p.2.2 == a) ∘ fun p : TBox × ℚ => (p.1, p.2, a))
          = fun _ => true := by
        funext p
        simp
      rw [hfun, List.filter_true, if_neg haL, if_pos (List.mem_cons_self a L),
        List.append_nil]
    · have hfun : ((fun p : TBox × ℚ × ℕ => p.2.2 == c) ∘ fun p : TBox × ℚ => (p.1, p.2, a))
          = fun _ => false := by
        funext p
        simp [hac]
      rw [hfun, List.filter_false, List.map_nil, List.nil_append]
      by_cases hcL : c ∈ L
      · rw [if_pos hcL, if_pos (List.mem_cons_of_mem a hcL)]
      · rw [if_neg hcL, if_neg]
        intro hmem
        rcases List.mem_cons.mp hmem with h | h
        · exact hac h.symm
        · exact hcL h

/-- C2 (confirmed): for every class id c below `num_classes`, the entries of
the `yolo_eval` output labelled c are exactly the per-class pipeline run on
the class-c scores alone (so no suppression ever crosses classes), every
such entry has score at least `score_threshold`, at most `max_boxes` of them
exist, and any two of them have IoU at most `iou_threshold` in both
orientations. -/
theorem yolo_eval_nms_contract (cands : List (TBox × List ℚ))
    (num_classes max_boxes : ℕ) (score_threshold iou_threshold : ℚ) (c : ℕ)
    (hc : c < num_classes) :
    ((yolo_eval cands num_classes max_boxes score_threshold iou_threshold).filter
        fun p => p.2.2 == c)
      = (yolo_eval_class cands max_boxes score_threshold iou_threshold c).map
          (fun p => (p.1, p.2, c))
    ∧ (∀ p ∈ (yolo_eval cands num_classes max_boxes score_threshold iou_threshold).filter
        fun p => p.2.2 == c, score_threshold ≤ p.2.1)
    ∧ ((yolo_eval cands num_classes max_boxes score_threshold iou_threshold).filter
        fun p => p.2.2 == c).length ≤ max_boxes
    ∧ ((yolo_eval cands num_classes max_boxes score_threshold iou_threshold).filter
        fun p => p.2.2 == c).Pairwise
        fun p q => tfIoU p.1 q.1 ≤ iou_threshold ∧ tfIoU q.1 p.1 ≤ iou_threshold := by
  have hfilter := filter_label_foldr
    (yolo_eval_class cands max_boxes score_threshold iou_threshold) c
    (List.range num_classes) (List.nodup_range num_classes)
  rw [if_pos (List.mem_range.mpr hc)] at hfilter
  have hfilter2 : ((yolo_eval cands num_classes max_boxes score_threshold
      iou_threshold).filter fun p => p.2.2 == c)
      = (yolo_eval_class cands max_boxes score_threshold iou_threshold c).map
          (fun p => (p.1, p.2, c)) := hfilter
  refine ⟨hfilter2, ?_, ?_, ?_⟩
  · intro p hp
    rw [hfilter2] at hp
    obtain ⟨q, hq, hpq⟩ := List.mem_map.mp hp
    simp only [yolo_eval_class] at hq
    have hq2 := nms_subset iou_threshold max_boxes _ q hq
    have hq3 : q ∈ (cands.map fun p => (p.1, p.2.getD c 0)).filter
        fun p => decide (score_threshold ≤ p.2) :=
      (List.perm_insertionSort (fun p q : TBox × ℚ => q.2 ≤ p.2) _).mem_iff.mp hq2
    have hscore := of_decide_eq_true (List.mem_filter.mp hq3).2
    rw [← hpq]
    exact hscore
  · rw [hfilter2, List.length_map]
    simp only [yolo_eval_class]
    exact nms_length_le iou_threshold max_boxes _
  · rw [hfilter2]
    have hpw : (yolo_eval_class cands max_boxes score_threshold iou_threshold c).Pairwise
        fun p q => tfIoU p.1 q.1 ≤ iou_threshold := by
      simp only [yolo_eval_class]
      exact nms_pairwise iou_threshold max_boxes _
    exact List.Pairwise.map _ (fun p q hpq => ⟨hpq, by rw [tfIoU_comm]; exact hpq⟩) hpw

unseal Rat.add Rat.sub Rat.mul Rat.inv in
/-- Witness for `yolo_eval_nms_contract`: one candidate box of score 1/2,
one class, default-like thresholds. -/
theorem yolo_eval_nms_contract_witness :
    0 < 1
    ∧ (((yolo_eval [(⟨0, 0, 10, 10⟩, [1 / 2])] 1 20 (3 / 10) (45 / 100)).filter
          fun p => p.2.2 == 0)
        = (yolo_eval_class [(⟨0, 0, 10, 10⟩, [1 / 2])] 20 (3 / 10) (45 / 100) 0).map
            (fun p => (p.1, p.2, 0))
      ∧ (∀ p ∈ (yolo_eval [(⟨0, 0, 10, 10⟩, [1 / 2])] 1 20 (3 / 10) (45 / 100)).filter
          fun p => p.2.2 == 0, (3 / 10 : ℚ) ≤ p.2.1)
      ∧ ((yolo_eval [(⟨0, 0, 10, 10⟩, [1 / 2])] 1 20 (3 / 10) (45 / 100)).filter
          fun p => p.2.2 == 0).length ≤ 20
      ∧ ((yolo_eval [(⟨0, 0, 10, 10⟩, [1 / 2])] 1 20 (3 / 10) (45 / 100)).filter
          fun p => p.2.2 == 0).Pairwise
          fun p q => tfIoU p.1 q.1 ≤ 45 / 100 ∧ tfIoU q.1 p.1 ≤ 45 / 100) :=
  ⟨by decide,
    yolo_eval_nms_contract [(⟨0, 0, 10, 10⟩, [1 / 2])] 1 20 (3 / 10) (45 / 100) 0
      (by decide)⟩

/-- C4 (amended): the letterbox correction is affine and performs no
clamping, so output corners can leave the image (see the counterexample);
what does hold is that whenever the decoded center lies inside the
letterboxed content region `[offset, 1 - offset]` on each axis, the center
of the output box — the midpoint of its corners — lies inside
`[0, image_width] x [0, image_height]`. -/
theorem yolo_correct_boxes_center_in_image
    (box_xy box_wh : ℚ × ℚ) (inH inW imH imW : ℚ)
    (hinH : 0 < inH) (hinW : 0 < inW) (himH : 0 < imH) (himW : 0 < imW)
    (hnH : 0 < letterbox_newH inH inW imH imW)
    (hnW : 0 < letterbox_newW inH inW imH imW)
    (hyl : letterbox_offY inH inW imH imW ≤ box_xy.2)
    (hyu : box_xy.2 ≤ 1 - letterbox_offY inH inW imH imW)
    (hxl : letterbox_offX inH inW imH imW ≤ box_xy.1)
    (hxu : box_xy.1 ≤ 1 - letterbox_offX inH inW imH imW) :
    (0 ≤ ((yolo_correct_boxes box_xy box_wh inH inW imH imW).y1
        + (yolo_correct_boxes box_xy box_wh inH inW imH imW).y2) / 2
      ∧ ((yolo_correct_boxes box_xy box_wh inH inW imH imW).y1
        + (yolo_correct_boxes box_xy box_wh inH inW imH imW).y2) / 2 ≤ imH)
    ∧ (0 ≤ ((yolo_correct_boxes box_xy box_wh inH inW imH imW).x1
        + (yolo_correct_boxes box_xy box_wh inH inW imH imW).x2) / 2
      ∧ ((yolo_correct_boxes box_xy box_wh inH inW imH imW).x1
        + (yolo_correct_boxes box_xy box_wh inH inW imH imW).x2) / 2 ≤ imW) := by
  have hmidY : ((yolo_correct_boxes box_xy box_wh inH inW imH imW).y1
      + (yolo_correct_boxes box_xy box_wh inH inW imH imW).y2) / 2
      = (box_xy.2 - letterbox_offY inH inW imH imW)
        * (inH / letterbox_newH inH inW imH imW) * imH := by
    simp only [yolo_correct_boxes]
    ring
  have hmidX : ((yolo_correct_boxes box_xy box_wh inH inW imH imW).x1
      + (yolo_correct_boxes box_xy box_wh inH inW imH imW).x2) / 2
      = (box_xy.1 - letterbox_offX inH inW imH imW)
        * (inW / letterbox_newW inH inW imH imW) * imW := by
    simp only [yolo_correct_boxes]
    ring
  have h2oy : 1 - 2 * letterbox_offY inH inW imH imW
      = letterbox_newH inH inW imH imW / inH := by
    unfold letterbox_offY
    field_simp
    ring
  have h2ox : 1 - 2 * letterbox_offX inH inW imH imW
      = letterbox_newW inH inW imH imW / inW := by
    unfold letterbox_offX
    field_simp
    ring
  have hdivY : (0 : ℚ) < inH / letterbox_newH inH inW imH imW := div_pos hinH hnH
  have hdivX : (0 : ℚ) < inW / letterbox_newW inH inW imH imW := div_pos hinW hnW
  have hyval1 : 0 ≤ (box_xy.2 - letterbox_offY inH inW imH imW)
      * (inH / letterbox_newH inH inW imH imW) :=
    mul_nonneg (by linarith) (le_of_lt hdivY)
  have hyval2 : (box_xy.2 - letterbox_offY inH inW imH imW)
      * (inH / letterbox_newH inH inW imH imW) ≤ 1 := by
    have htu : box_xy.2 - letterbox_offY inH inW imH imW
        ≤ letterbox_newH inH inW imH imW / inH := by linarith
    have step := mul_le_mul_of_nonneg_right htu (le_of_lt hdivY)
    have hone : letterbox_newH inH inW imH imW / inH
        * (inH / letterbox_newH inH inW imH imW) = 1 := by
      field_simp
    linarith
  have hxval1 : 0 ≤ (box_xy.1 - letterbox_offX inH inW imH imW)
      * (inW / letterbox_newW inH inW imH imW) :=
    mul_nonneg (by linarith) (le_of_lt hdivX)
  have hxval2 : (box_xy.1 - letterbox_offX inH inW imH imW)
      * (inW / letterbox_newW inH inW imH imW) ≤ 1 := by
    have htu : box_xy.1 - letterbox_offX inH inW imH imW
        ≤ letterbox_newW inH inW imH imW / inW := by linarith
    have step := mul_le_mul_of_nonneg_right htu (le_of_lt hdivX)
    have hone : letterbox_newW inH inW imH imW / inW
        * (inW / letterbox_newW inH inW imH imW) = 1 := by
      field_simp
    linarith
  refine ⟨⟨?_, ?_⟩, ?_, ?_⟩
  · rw [hmidY]
    exact mul_nonneg hyval1 (le_of_lt himH)
  · rw [hmidY]
    calc (box_xy.2 - letterbox_offY inH inW imH imW)
        * (inH / letterbox_newH inH inW imH imW) * imH
        ≤ 1 * imH := mul_le_mul_of_nonneg_right hyval2 (le_of_lt himH)
      _ = imH := one_mul imH
  · rw [hmidX]
    exact mul_nonneg hxval1 (le_of_lt himW)
  · rw [hmidX]
    calc (box_xy.1 - letterbox_offX inH inW imH imW)
        * (inW / letterbox_newW inH inW imH imW) * imW
        ≤ 1 * imW := mul_le_mul_of_nonneg_right hxval2 (le_of_lt himW)
      _ = imW := one_mul imW

unseal Rat.add Rat.sub Rat.mul Rat.inv in
/-- Witness for `yolo_correct_boxes_center_in_image`: a 416 by 416 image in
a 416 by 416 network input (no padding), box center (1/2, 1/2). -/
theorem yolo_correct_boxes_center_in_image_witness :
    (0 : ℚ) < 416
    ∧ 0 < letterbox_newH 416 416 416 416
    ∧ letterbox_offY 416 416 416 416 ≤ (1 / 2 : ℚ)
    ∧ ((0 ≤ ((yolo_correct_boxes (1 / 2, 1 / 2) (1 / 10, 1 / 10) 416 416 416 416).y1
          + (yolo_correct_boxes (1 / 2, 1 / 2) (1 / 10, 1 / 10) 416 416 416 416).y2) / 2
        ∧ ((yolo_correct_boxes (1 / 2, 1 / 2) (1 / 10, 1 / 10) 416 416 416 416).y1
          + (yolo_correct_boxes (1 / 2, 1 / 2) (1 / 10, 1 / 10) 416 416 416 416).y2) / 2
            ≤ 416)
      ∧ (0 ≤ ((yolo_correct_boxes (1 / 2, 1 / 2) (1 / 10, 1 / 10) 416 416 416 416).x1
          + (yolo_correct_boxes (1 / 2, 1 / 2) (1 / 10, 1 / 10) 416 416 416 416).x2) / 2
        ∧ ((yolo_correct_boxes (1 / 2, 1 / 2) (1 / 10, 1 / 10) 416 416 416 416).x1
          + (yolo_correct_boxes (1 / 2, 1 / 2) (1 / 10, 1 / 10) 416 416 416 416).x2) / 2
            ≤ 416)) :=
  ⟨by decide, by decide, by decide,
    yolo_correct_boxes_center_in_image (1 / 2, 1 / 2) (1 / 10, 1 / 10) 416 416 416 416
      (by decide) (by decide) (by decide) (by decide) (by decide) (by decide)
      (by decide) (by decide) (by decide) (by decide)⟩

unseal Rat.add Rat.sub Rat.mul Rat.inv in
/-- C4 counterexample: network input 416 by 416, original image 208 high by
416 wide (letterboxed with vertical padding), decoded box center
(x, y) = (1/2, 1/10) and size (1/10, 1/10) — all components inside (0, 1) —
yet the corrected y_min is -416/5, far below 0: the output is NOT confined
to [0, image_width] x [0, image_height]. -/
theorem yolo_correct_boxes_out_of_range_counterexample :
    (yolo_correct_boxes (1 / 2, 1 / 10) (1 / 10, 1 / 10) 416 416 208 416).y1 = -(416 / 5)
    ∧ ¬ (0 ≤ (yolo_correct_boxes (1 / 2, 1 / 10) (1 / 10, 1 / 10) 416 416 208 416).y1) := by
  decide

end KerasYolo3
